import Mathlib

/-!
Verification development for the scc-lib source-control-provider
abstraction layer.  The Go sources are shallowly embedded: each Go
function that a claim mentions is translated into an executable Lean
definition over explicit state / explicit call traces, and the claims
are settled as theorems about those definitions.

Conventions used throughout:
  - Go errors are modelled by the inductive type GoErr; a Go value of
    type error that is nil is modelled by none : Option GoErr.
  - Remote providers are modelled by the sequence of responses they
    would return, in call order; functions return the trace of calls
    they performed so that round-trip counts are provable.
  - Wall-clock time is modelled in milliseconds by an abstract elapsed
    function; the only facts used are the ones the Go runtime
    guarantees (time never decreases, each backoff sleep lasts at
    least the 10 ms minimum of the jpillora backoff generator).
-/

/-- Model of the Go error values that appear in the embedded code.
plain is an ordinary error built from a message; wrap is
errors.Wrap(cause, msg); retryTimeoutErr is errx.ErrRetryTimeout.Err(cause)
(cause may be the nil error, hence Option); retryLimitMsg is
cerr.ErrRetryTimeout.Msg of the string quoted as the reached retry limit;
abuseLimit is the github AbuseRateLimitError carrying RetryAfter. -/
inductive GoErr where
  | plain (msg : String)
  | wrap (msg : String) (cause : GoErr)
  | retryTimeoutErr (cause : Option GoErr)
  | retryLimitMsg
  | abuseLimit (retryAfter : Nat)
  deriving Repr

/-- True exactly for the two error shapes produced from the
ErrRetryTimeout registry entry (E10034, the RetryTimeoutExceeded kind). -/
def GoErr.isRetryTimeout : GoErr → Bool
  | .retryTimeoutErr _ => true
  | .retryLimitMsg => true
  | _ => false

/-!
Embedding of retry.Retry (retry package).

The Go function is

  func Retry(timeout time.Duration, f func(int) error) (err error)

with a backoff generator whose sleeps always last at least 10 ms
(Min is 10 ms and the jittered duration is drawn from the interval
starting at Min).  We model the result of f on attempt number k
(1-based, as in the source) by f k : Option GoErr, and wall-clock
time by an elapsed function built from an arbitrary slack function
extra : Nat → Nat: the time observed by the select at the top of
loop iteration i (0-based) is retryElapsed extra i, which grows by
10 + extra i between iterations (10 ms minimum backoff sleep plus an
arbitrary non-negative amount of additional sleep, attempt duration
and scheduling delay). -/
def retryElapsed (extra : Nat → Nat) : Nat → Nat
  | 0 => 0
  | i + 1 => retryElapsed extra i + 10 + extra i

/-- The retryLoop labelled loop of retry.Retry for timeout > 0.
Iteration i (0-based) first checks whether the single-shot timer
created by time.After(timeout) has fired (it has fired exactly when
the elapsed time has reached timeout); if so the loop breaks and the
function returns ErrRetryTimeout.Err of the last observed error.
Otherwise it calls f with attempt number i+1; a nil result returns
nil immediately; an error is remembered, the attempt counter is
incremented and the backoff sleep runs before the next iteration.
The second component of the result is the trace of calls performed
from this iteration on: pairs of (attempt number, elapsed time at the
check that admitted the attempt). -/
def retryLoop (timeout : Nat) (f : Nat → Option GoErr) (extra : Nat → Nat)
    (i : Nat) (last : Option GoErr) : Option GoErr × List (Nat × Nat) :=
  if h : timeout ≤ retryElapsed extra i then
    (some (.retryTimeoutErr last), [])
  else
    match f (i + 1) with
    | none => (none, [(i + 1, retryElapsed extra i)])
    | some e =>
      let r := retryLoop timeout f extra (i + 1) (some e)
      (r.1, (i + 1, retryElapsed extra i) :: r.2)
  termination_by timeout - retryElapsed extra i
  decreasing_by
    simp only [retryElapsed]
    omega

/-- Embedding of retry.Retry.  For timeout == 0 the function calls f
exactly once with attempt number 1 and wraps a non-nil error as
ErrRetryTimeout.Err; otherwise it enters retryLoop with attempt 1 and
no last error.  Returns the Go return value together with the trace
of attempts performed. -/
def Retry (timeout : Nat) (f : Nat → Option GoErr) (extra : Nat → Nat) :
    Option GoErr × List (Nat × Nat) :=
  if timeout = 0 then
    match f 1 with
    | none => (none, [(1, 0)])
    | some e => (some (.retryTimeoutErr (some e)), [(1, 0)])
  else
    retryLoop timeout f extra 0 none

/-!
Embedding of githubInteraction.withSecondaryRateLimitRetry
(internal/interactions/githubintr.go).

The wrapped call f is modelled by the sequence of outcomes it would
produce on successive invocations: calls i is the outcome of the
(i+1)-st invocation.  ok models a nil error, abuse d models a
github.AbuseRateLimitError with RetryAfter d, fail models any other
error. -/
inductive GhCall where
  | ok
  | abuse (retryAfter : Nat)
  | fail (msg : String)
  deriving DecidableEq, Repr

/-- Wall-clock time at the select check of iteration i of the
withSecondaryRateLimitRetry loop: the sum of the durations of the
previous invocations of f (durs) plus the provider-mandated
cooldown sleeps taken after abuse outcomes. -/
def wsrlElapsed (calls : Nat → GhCall) (durs : Nat → Nat) : Nat → Nat
  | 0 => 0
  | i + 1 =>
    wsrlElapsed calls durs i + durs i +
      (match calls i with | .abuse d => d | _ => 0)

/-- The retryLoop labelled loop of withSecondaryRateLimitRetry.
Iteration i (0-based): check the single-shot timer (fired exactly
when elapsed time reached timeout; on fire return
ErrRetryTimeout.Err of the last observed error); increment tryCount
(so tryCount = i+1); invoke f; nil returns nil; an
AbuseRateLimitError sleeps exactly RetryAfter; any other error is
returned immediately; finally, if tryCount has reached retryCount,
return the reached-retry-limit error.  The result carries the number
of invocations of f performed from this iteration on and the list of
cooldown sleeps taken (in ms). -/
def wsrlLoop (timeout retryCount : Nat) (calls : Nat → GhCall) (durs : Nat → Nat)
    (i : Nat) (last : Option GoErr) : Option GoErr × Nat × List Nat :=
  if h : timeout ≤ wsrlElapsed calls durs i then
    (some (.retryTimeoutErr last), 0, [])
  else
    match calls i with
    | .ok => (none, 1, [])
    | .fail m => (some (.plain m), 1, [])
    | .abuse d =>
      if h2 : retryCount ≤ i + 1 then
        (some .retryLimitMsg, 1, [d])
      else
        let r := wsrlLoop timeout retryCount calls durs (i + 1) (some (.abuseLimit d))
        (r.1, r.2.1 + 1, d :: r.2.2)
  termination_by retryCount - i
  decreasing_by omega

/-- Embedding of withSecondaryRateLimitRetry: enter the loop at
iteration 0 with no last error.  timeout is
time.Duration(retryLimitTimeout) * time.Second in ms, retryCount is
the configured attempt cap. -/
def withSecondaryRateLimitRetry (timeout retryCount : Nat) (calls : Nat → GhCall)
    (durs : Nat → Nat) : Option GoErr × Nat × List Nat :=
  wsrlLoop timeout retryCount calls durs 0 none

/-!
Embedding of the pagination data model
(go-grpc api.PaginationRequest / api.PaginationResponse and the
provider-agnostic org / repo records).  Sizes are modelled as Int
(the Go fields are int32; the int32(len(...)) conversions in the
sources never overflow for the list lengths considered here, so no
wrap-around is modelled). -/
structure PaginationRequest where
  size : Int
  token : String
  deriving DecidableEq, Repr

structure PaginationResponse where
  nextToken : String
  resultSize : Int
  totalSize : Int
  deriving DecidableEq, Repr

structure SccOrg where
  name : String
  id : String
  deriving DecidableEq, Repr

structure SccRepo where
  name : String
  org : String
  url : String
  ciUrl : String
  deriving DecidableEq, Repr

/-- CI url suffix appended by the github source (variable githubCI). -/
def githubCI : String := "/actions"

/-- CI url suffix appended by the gitlab source (variable gitlabCI). -/
def gitlabCI : String := "/-/pipelines"

/-!
Embedding of githubSource.ListOrgs and githubSource.ListRepos
(sources/github.go).

The GraphQL backend is modelled by the list of page responses it
returns, in call order.  A page response carries the decoded nodes,
the PageInfo fields hasNextPage / endCursor, and the total count
reported by the provider. -/
structure GhPage (α : Type) where
  nodes : List α
  hasNextPage : Bool
  endCursor : String
  totalCount : Int
  deriving DecidableEq, Repr

/-- The for loop shared by githubSource.ListOrgs and
githubSource.ListRepos.  first and after are the current GraphQL
variables; the result is none when the backend response list is
exhausted while the loop still wants another page (a modelling
artifact that never occurs for a backend that eventually reports
hasNextPage = false), otherwise the accumulated items, the returned
PaginationResponse and the trace of backend calls as
(first, after) variable pairs. -/
def ghPagedLoop {α : Type} (size : Int) (first : Int) (after : Option String)
    (pages : List (GhPage α)) (acc : List α) :
    Option (List α × PaginationResponse × List (Int × Option String)) :=
  match pages with
  | [] => none
  | p :: rest =>
    let acc2 := acc ++ p.nodes
    let call := (first, after)
    if size ≠ -1 then
      some (acc2, ⟨p.endCursor, (acc2.length : Int), p.totalCount⟩, [call])
    else if p.hasNextPage = false then
      some (acc2, ⟨"", (acc2.length : Int), (acc2.length : Int)⟩, [call])
    else
      (ghPagedLoop size first (some p.endCursor) rest acc2).map
        (fun r => (r.1, r.2.1, call :: r.2.2))

/-- Embedding of githubSource.ListOrgs.  page is the possibly-nil
PaginationRequest pointer; pages are the organization logins served
by the GraphQL backend per call.  The login-to-SccOrg conversion done
inside the Go loop commutes with accumulation and is applied to the
accumulated list.  The outer Option is the modelling artifact of
ghPagedLoop; Except carries the Go error result. -/
def githubListOrgs (page : Option PaginationRequest) (pages : List (GhPage String)) :
    Option (Except GoErr (List SccOrg × PaginationResponse × List (Int × Option String))) :=
  match page with
  | none => some (.error (.plain "page must not be empty"))
  | some pg =>
    if pg.size < -1 ∨ pg.size > 100 then
      some (.error (.plain "page size must be >= -1 and <= 100"))
    else
      let first : Int := if pg.size = -1 then 100 else pg.size
      let after : Option String := if pg.token ≠ "" then some pg.token else none
      (ghPagedLoop pg.size first after pages []).map
        (fun r => .ok (r.1.map (fun o => ⟨o, o⟩), r.2.1, r.2.2))

/-- A repository node decoded from the github GraphQL search query:
name, owner login and html url. -/
structure GhRepoNode where
  name : String
  login : String
  url : String
  deriving DecidableEq, Repr

/-- Embedding of githubSource.ListRepos.  Identical validation and
loop as ListOrgs; nodes are mapped to SccRepo records with the
github CI suffix appended to the url. -/
def githubListRepos (page : Option PaginationRequest) (pages : List (GhPage GhRepoNode)) :
    Option (Except GoErr (List SccRepo × PaginationResponse × List (Int × Option String))) :=
  match page with
  | none => some (.error (.plain "page must not be empty"))
  | some pg =>
    if pg.size < -1 ∨ pg.size > 100 then
      some (.error (.plain "page size must be >= -1 and <= 100"))
    else
      let first : Int := if pg.size = -1 then 100 else pg.size
      let after : Option String := if pg.token ≠ "" then some pg.token else none
      (ghPagedLoop pg.size first after pages []).map
        (fun r => .ok (r.1.map (fun n => ⟨n.name, n.login, n.url, n.url ++ githubCI⟩),
          r.2.1, r.2.2))

/-!
Embedding of gitlabSource.ListOrgs, gitlabSource.listPagedRepos and
gitlabSource.ListRepos (sources/gitlab.go).

The gitlab REST backend is page-number based: a response carries the
items, the NextPage field (0 when no further page exists) and the
TotalItems header value. -/
structure GlPage (α : Type) where
  items : List α
  nextPage : Nat
  totalItems : Int
  deriving DecidableEq, Repr

/-- A gitlab group as consumed by ListOrgs: display name and full
path. -/
structure GlGroup where
  name : String
  fullPath : String
  deriving DecidableEq, Repr

/-- A gitlab project as consumed by listPagedRepos: display name and
web url. -/
structure GlProject where
  name : String
  webURL : String
  deriving DecidableEq, Repr

/-- Splitting a character list at every occurrence of a separator
character, keeping empty parts (the semantics of Go strings.Split
with a one-character separator). -/
def splitCharAux (sep : Char) : List Char → List (List Char)
  | [] => [[]]
  | c :: rest =>
    let r := splitCharAux sep rest
    if c = sep then
      [] :: r
    else
      match r with
      | [] => [[c]]
      | h :: t => (c :: h) :: t

/-- Model of Go strings.Split with a one-character separator.
Defined over the character list so that it reduces inside the
kernel. -/
def goSplit (s : String) (sep : Char) : List String :=
  (splitCharAux sep s.data).map (fun l => ⟨l⟩)

/-- Go strings.Split on the comma separator, used on the
X-OAuth-Scopes header. -/
def goSplitComma (s : String) : List String :=
  goSplit s ','

/-- Model of Go strings.TrimSpace: drop leading and trailing
whitespace. -/
def goTrim (s : String) : String :=
  ⟨((s.data.dropWhile Char.isWhitespace).reverse.dropWhile Char.isWhitespace).reverse⟩

/-- Model of Go strconv.Atoi: an optional single sign followed by a
non-empty run of decimal digits; anything else is an error (none). -/
def goAtoi (s : String) : Option Int :=
  let digitsVal : List Char → Option Nat := fun l =>
    if l = [] then none
    else if l.all Char.isDigit then
      some (l.foldl (fun a c => a * 10 + (c.toNat - 48)) 0)
    else none
  match s.data with
  | '+' :: rest => (digitsVal rest).map Int.ofNat
  | '-' :: rest => (digitsVal rest).map (fun n => -(n : Int))
  | l => (digitsVal l).map Int.ofNat

/-- The for loop of gitlabSource.ListOrgs and of
gitlabSource.listPagedRepos (they are textually identical up to the
item mapping, which is applied by the callers below).  curPage and
perPage are the current ListOptions fields; the call trace records
(Page, PerPage) per backend call.  NextToken is rendered from
NextPage with the same decimal formatting as fmt.Sprintf. -/
def glPagedLoop {α : Type} (pageSize : Int) (curPage : Int) (perPage : Int)
    (pages : List (GlPage α)) (acc : List α) :
    Option (List α × PaginationResponse × List (Int × Int)) :=
  match pages with
  | [] => none
  | p :: rest =>
    let acc2 := acc ++ p.items
    let call := (curPage, perPage)
    if pageSize ≠ -1 then
      some (acc2, ⟨toString p.nextPage, (acc2.length : Int), p.totalItems⟩, [call])
    else if p.nextPage = 0 then
      some (acc2, ⟨"", (acc2.length : Int), (acc2.length : Int)⟩, [call])
    else
      (glPagedLoop pageSize ((p.nextPage : Nat) : Int) perPage rest acc2).map
        (fun r => (r.1, r.2.1, call :: r.2.2))

/-- Embedding of gitlabSource.ListOrgs.  Validation order follows the
source: nil page, size bounds, then token parsing (Atoi on the
untrimmed token, guarded by a non-empty trimmed token).  Groups are
mapped to SccOrg with Id = FullPath. -/
def gitlabListOrgs (page : Option PaginationRequest) (pages : List (GlPage GlGroup)) :
    Option (Except GoErr (List SccOrg × PaginationResponse × List (Int × Int))) :=
  match page with
  | none => some (.error (.plain "page must not be empty"))
  | some pg =>
    if pg.size < -1 ∨ pg.size > 100 then
      some (.error (.plain "page size must be >= -1 and <= 100"))
    else
      match (if goTrim pg.token ≠ "" then (goAtoi pg.token).map some else some none) with
      | none => some (.error (.plain "page token must be int"))
      | some parsed =>
        let pageToRead : Int := parsed.getD 0
        let perPage : Int := if pg.size = -1 then 100 else pg.size
        (glPagedLoop pg.size pageToRead perPage pages []).map
          (fun r => .ok (r.1.map (fun g => ⟨g.name, g.fullPath⟩), r.2.1, r.2.2))

/-- Embedding of gitlabSource.listPagedRepos: the page loop over
projects, mapping each project to an SccRepo whose org is the queried
user and whose CI url appends the gitlab pipeline suffix. -/
def gitlabListPagedRepos (user : String) (pageSize : Int) (curPage : Int) (perPage : Int)
    (pages : List (GlPage GlProject)) :
    Option (Except GoErr (List SccRepo × PaginationResponse × List (Int × Int))) :=
  (glPagedLoop pageSize curPage perPage pages []).map
    (fun r => .ok (r.1.map (fun p => ⟨p.name, user, p.webURL, p.webURL ++ gitlabCI⟩),
      r.2.1, r.2.2))

/-- Embedding of gitlabSource.ListRepos.  username is the login
returned by CurrentUser; whether org equals it only selects which
backend endpoint serves the pages (ListUserProjects vs
ListGroupProjects), the pagination behaviour being identical, so the
served pages are a single parameter. -/
def gitlabListRepos (username : String) (org : String) (page : Option PaginationRequest)
    (pages : List (GlPage GlProject)) :
    Option (Except GoErr (List SccRepo × PaginationResponse × List (Int × Int))) :=
  match page with
  | none => some (.error (.plain "page must not be empty"))
  | some pg =>
    if pg.size < -1 ∨ pg.size > 100 then
      some (.error (.plain "page size must be >= -1 and <= 100"))
    else
      match (if goTrim pg.token ≠ "" then (goAtoi pg.token).map some else some none) with
      | none => some (.error (.plain "page token must be int"))
      | some parsed =>
        let pageToRead : Int := parsed.getD 0
        let perPage : Int := if pg.size = -1 then 100 else pg.size
        gitlabListPagedRepos org pg.size pageToRead perPage pages

/-!
Embedding of CreateCommitOnBranch (sources/github.go and
sources/gitlab.go). -/

/-- The Commit value of the sources package: an atomic change set for
one commit.  content is the path-to-text mapping; the Go map is
modelled as an association list whose head plays the role of the
single entry inspected by the github no-op check. -/
structure GoCommit where
  branch : String
  message : String
  owner : String
  repo : String
  content : List (String × String)
  deriving DecidableEq, Repr

/-- State of one github branch as seen through the GraphQL read path:
the tip commit oid of the ref (empty string when the repository has
no commit on the branch) and the blob text of each file at HEAD. -/
structure GhGitState where
  tip : String
  files : List (String × String)
  deriving DecidableEq, Repr

/-- Blob text returned by the object(expression: HEAD:path) query:
the stored text, or the empty string when the blob does not exist. -/
def ghBlobText (st : GhGitState) (path : String) : String :=
  (st.files.lookup path).getD ""

/-- File map after the createCommitOnBranch mutation applies the
FileChanges additions of the commit. -/
def ghApplyAdditions (files : List (String × String)) (adds : List (String × String)) :
    List (String × String) :=
  adds.foldl (fun fs pc => pc :: fs) files

/-- Embedding of githubSource.CreateCommitOnBranch.  The body of the
retry.Retry wrapper is deterministic in the branch state, so the
wrapper is collapsed: a body error on every attempt surfaces as
ErrRetryTimeout.Err of that error, and a first-attempt success
returns immediately (both facts proved about the Retry embedding
above).  The function reads the branch tip and the blob text of the
first entry of the commit content map; an empty tip is the
ErrEmptyRepo path; when the existing text is non-empty and equal to
the requested text the function returns with no mutation and an
empty commit oid (so waitForCommit is skipped); otherwise it submits
the createCommitOnBranch mutation, whose new commit oid is the
newOid parameter, and waitForCommit then observes that commit.
Result: (Go return value, new branch state, number of commit
mutations submitted). -/
def githubCreateCommitOnBranch (st : GhGitState) (commit : GoCommit) (newOid : String) :
    Except GoErr String × GhGitState × Nat :=
  let filePath := ((commit.content.head?).map Prod.fst).getD ""
  let content := ((commit.content.head?).map Prod.snd).getD ""
  if st.tip = "" then
    (.error (.retryTimeoutErr (some (.wrap (commit.owner ++ "/" ++ commit.repo)
      (.plain "repository is not initialized")))), st, 0)
  else
    let configContent := ghBlobText st filePath
    if configContent ≠ "" ∧ configContent = content then
      (.ok "", st, 0)
    else
      (.ok newOid, ⟨newOid, ghApplyAdditions st.files commit.content⟩, 1)

/-- State of one gitlab branch: the file contents reachable through
GetProjectFile on that branch. -/
structure GlGitState where
  files : List (String × String)
  deriving DecidableEq, Repr

/-- A gitlab commit action as built by the source: FileUpdate when
GetProjectFile succeeded for the path, FileCreate otherwise. -/
inductive GlAction where
  | fileUpdate
  | fileCreate
  deriving DecidableEq, Repr

/-- Embedding of gitlabSource.CreateCommitOnBranch.  For every entry
of the content map the source probes GetProjectFile to choose between
update and create, then unconditionally calls CreateCommit once with
the accumulated actions.  Result: (Go return value, action list, new
branch state, number of CreateCommit calls). -/
def gitlabCreateCommitOnBranch (st : GlGitState) (commit : GoCommit) :
    Except GoErr Unit × List (GlAction × String × String) × GlGitState × Nat :=
  let actions := commit.content.map (fun pc =>
    ((if (st.files.lookup pc.1).isSome then GlAction.fileUpdate else GlAction.fileCreate),
      pc.1, pc.2))
  (.ok (), actions, ⟨ghApplyAdditions st.files commit.content⟩, 1)

/-!
Embedding of InitialTag (sources/github.go and sources/gitlab.go).
Write calls are recorded by name so that no-write behaviour is a
provable trace property. -/

/-- The github repository data consumed by InitialTag: the default
branch name, the node id used by the createRef mutation, the
existing tags, the sha at heads/defaultBranch (none when GetRepoRef
fails because the repo is empty) and whether
ListRepositoryWorkflowRuns reports at least one run. -/
structure GhRepoInfo where
  defaultBranch : String
  nodeID : String
  tags : List String
  headSha : Option String
  hasWorkflowRuns : Bool
  deriving DecidableEq, Repr

/-- The initial release tag (variable defaultTag of the sources
package). -/
def defaultTag : String := "v0.0.0"

/-- Embedding of githubSource.forceRerunWorkflow: poll for workflow
runs (collapsed retry over a deterministic backend); when none
appear, dispatch the workflow by file name.  Returns the write calls
performed. -/
def githubForceRerunWorkflow (st : GhRepoInfo) : List String :=
  if st.hasWorkflowRuns then [] else ["dispatchWorkflow"]

/-- Embedding of githubSource.InitialTag.  The full name must split
into exactly owner and repo; GetRepo is assumed to answer (its
failure paths only propagate errors).  Only when commitSha is empty
does the source list the existing tags and return early when one
exists; with a non-empty commitSha the createRef mutation runs
unconditionally.  The result is the list of write calls performed
(createRef mutation, workflow dispatch). -/
def githubInitialTag (st : GhRepoInfo) (fullName workflowFileName commitSha : String) :
    Except GoErr (List String) :=
  let repoPieces := goSplit fullName '/'
  if repoPieces.length ≠ 2 then
    .error (.plain ("invalid full github repo name " ++ fullName))
  else
    let afterSha : String → Except GoErr (List String) := fun _sha =>
      let writes := ["createRef"]
      if workflowFileName ≠ "" then
        .ok (writes ++ githubForceRerunWorkflow st)
      else
        .ok writes
    if commitSha = "" then
      if st.tags.length > 0 then
        .ok []
      else
        match st.headSha with
        | none => .error (.plain "repo seems to be empty")
        | some sha => afterSha sha
    else
      afterSha commitSha

/-- The gitlab project data consumed by InitialTag: default branch,
existing tag list and project id. -/
structure GlProjInfo where
  defaultBranch : String
  tagList : List String
  id : Nat
  deriving DecidableEq, Repr

/-- Embedding of gitlabSource.InitialTag.  The full name must contain
a slash; GetProject is assumed to answer.  When the project already
has at least one tag the function returns nil with no further calls;
otherwise it creates the v0.0.0 tag at the default branch.  The
result is the list of write calls performed. -/
def gitlabInitialTag (proj : GlProjInfo) (fullName workflowFileName : String) :
    Except GoErr (List String) :=
  if fullName.data.count '/' = 0 then
    .error (.plain ("invalid full gitlab repo name " ++ fullName))
  else
    if proj.tagList.length > 0 then
      .ok []
    else
      .ok ["createTag"]

/-!
Embedding of the scope check of githubSource.ValidateConnection
(sources/github.go).

Each required scope string is compiled with regexp.Compile and
matched with MatchString, which succeeds when the pattern matches
any substring of the granted scope.  The regular expressions
actually used are alternations of literals, so the embedding uses a
small regex language with empty word, single character,
concatenation and alternation, and an unanchored matcher. -/
inductive RE where
  | eps
  | chr (c : Char)
  | cat (a b : RE)
  | alt (a b : RE)
  deriving DecidableEq, Repr

/-- Continuation-passing matcher: reMatch r s k is true when some
prefix of s is matched by r and k accepts the remaining suffix. -/
def reMatch : RE → List Char → (List Char → Bool) → Bool
  | .eps, s, k => k s
  | .chr c, s, k =>
    match s with
    | [] => false
    | x :: xs => x = c && k xs
  | .cat a b, s, k => reMatch a s (fun rest => reMatch b rest k)
  | .alt a b, s, k => reMatch a s k || reMatch b s k

/-- The regex denoting a literal string. -/
def reLit (s : String) : RE :=
  s.data.foldr (fun c r => .cat (.chr c) r) .eps

/-- Does r match starting at any position of the character list? -/
def reMatchSub (r : RE) : List Char → Bool
  | [] => reMatch r [] (fun _ => true)
  | c :: cs => reMatch r (c :: cs) (fun _ => true) || reMatchSub r (cs)

/-- Model of Go regexp MatchString: unanchored substring match. -/
def reMatchString (r : RE) (s : String) : Bool :=
  reMatchSub r s.data

/-- The compiled form of the required scope pattern
  (admin|read):org. -/
def adminReadOrgRE : RE :=
  .cat (.alt (reLit "admin") (reLit "read")) (reLit ":org")

/-- Inner loop of the scope check: for a granted scope es, find the
first required pattern that matches the trimmed scope, record it in
the found set and stop (the foundScopes map is keyed by the pattern,
so recording is idempotent). -/
def markGranted (required : List RE) (found : List RE) (es : String) : List RE :=
  match required with
  | [] => found
  | rs :: rest =>
    if reMatchString rs (goTrim es) then
      if rs ∈ found then found else rs :: found
    else
      markGranted rest found es

/-- Outer loop of the scope check over the scope slice obtained by
splitting the X-OAuth-Scopes header on commas. -/
def scanScopes (required : List RE) (granted : List String) : List RE :=
  granted.foldl (fun found es => markGranted required found es) []

/-- Embedding of the scope portion of githubSource.ValidateConnection:
after a 200 response, an empty required set passes; otherwise the
connection is accepted exactly when the number of distinct required
patterns matched by some granted scope equals the number of required
patterns. -/
def githubValidateConnection (statusOK : Bool) (required : List RE) (header : String) :
    Option GoErr :=
  if statusOK = false then
    some (.plain "unexpected reply from GitHub")
  else if required.length = 0 then
    none
  else if (scanScopes required (goSplitComma header)).length = required.length then
    none
  else
    some (.plain "github access token is missing scopes")

/-!
Embedding of githubSource.GetRepo and githubSource.GetDefaultBranch
(sources/github.go).  The go-github Repository fields are pointers;
absent fields are modelled as none, and a dereference of an absent
field is the nilPanic result. -/
structure GhUser where
  login : Option String
  deriving DecidableEq, Repr

structure GhRepository where
  name : Option String
  owner : Option GhUser
  htmlURL : Option String
  defaultBranch : Option String
  deriving DecidableEq, Repr

/-- Result of a Go function that may also panic on a nil pointer
dereference. -/
inductive GoRes (α : Type) where
  | ok (a : α)
  | err (e : GoErr)
  | nilPanic
  deriving Repr

/-- True exactly on the nilPanic result. -/
def GoRes.isPanic {α : Type} : GoRes α → Bool
  | .nilPanic => true
  | _ => false

/-- Embedding of githubSource.GetRepo: a client error is wrapped; on
success the fields Name, Owner.Login and HTMLURL are dereferenced
without nil checks, in source order, panicking when any of them is
absent. -/
def githubGetRepo (resp : Except GoErr GhRepository) : GoRes SccRepo :=
  match resp with
  | .error e => .err (.wrap "failed to get repo" e)
  | .ok r =>
    match r.name with
    | none => .nilPanic
    | some n =>
      match r.owner with
      | none => .nilPanic
      | some o =>
        match o.login with
        | none => .nilPanic
        | some l =>
          match r.htmlURL with
          | none => .nilPanic
          | some u => .ok ⟨n, l, u, u ++ githubCI⟩

/-- Embedding of githubSource.GetDefaultBranch: a client error is
wrapped; on success DefaultBranch is dereferenced without a nil
check. -/
def githubGetDefaultBranch (resp : Except GoErr GhRepository) : GoRes String :=
  match resp with
  | .error e => .err (.wrap "failed to get repo" e)
  | .ok r =>
    match r.defaultBranch with
    | none => .nilPanic
    | some b => .ok b

/-!
Theorems.  Helper lemmas come first, then one theorem per claim
(with witnesses and counterexamples where required). -/

/-- Elapsed time in the Retry loop never decreases. -/
theorem retryElapsed_mono (extra : Nat → Nat) {i j : Nat} (h : i ≤ j) :
    retryElapsed extra i ≤ retryElapsed extra j := by
  induction j with
  | zero =>
    have hz : i = 0 := by omega
    subst hz
    exact le_refl _
  | succ n ih =>
    by_cases hc : i ≤ n
    · exact le_trans (ih hc) (by simp only [retryElapsed]; omega)
    · have hz : i = n + 1 := by omega
      subst hz
      exact le_refl _

/-- C5: retry.Retry with timeout 0 invokes the attempt function
exactly once regardless of its result; a failure is returned wrapped
as the RetryTimeoutExceeded error carrying the original cause, a
success returns nil. -/
theorem retry_zero_exactly_once (f : Nat → Option GoErr) (extra : Nat → Nat) :
    (Retry 0 f extra).2.length = 1 ∧
    (f 1 = none → (Retry 0 f extra).1 = none) ∧
    (∀ e, f 1 = some e →
      (Retry 0 f extra).1 = some (.retryTimeoutErr (some e))) := by
  unfold Retry
  cases hf : f 1 with
  | none => simp [hf]
  | some e => simp [hf]

/-- Witness for C5 at concrete attempt functions: a failing function
yields the wrapped error after one call, a succeeding one yields nil
after one call. -/
theorem retry_zero_exactly_once_witness :
    (Retry 0 (fun _ => some (.plain "nope")) (fun _ => 0)).1 =
      some (.retryTimeoutErr (some (.plain "nope"))) ∧
    (Retry 0 (fun _ => none) (fun _ => 0)).1 = none ∧
    (Retry 0 (fun _ => none) (fun _ => 0)).2.length = 1 :=
  ⟨(retry_zero_exactly_once (fun _ => some (.plain "nope")) (fun _ => 0)).2.2 _ rfl,
   (retry_zero_exactly_once (fun _ => none) (fun _ => 0)).2.1 rfl,
   (retry_zero_exactly_once (fun _ => none) (fun _ => 0)).1⟩

/-- C10: the github GetRepo and GetDefaultBranch embeddings are total
(never panic) exactly under the precondition that every successful
provider response populates Name, Owner, Owner.Login, HTMLURL and
DefaultBranch; a successful response missing any of those fields
makes the corresponding operation panic on a nil dereference instead
of returning an error. -/
theorem getRepo_nil_deref_totality :
    (∀ (n l u b : String),
      githubGetRepo (.ok ⟨some n, some ⟨some l⟩, some u, some b⟩) =
        .ok ⟨n, l, u, u ++ githubCI⟩ ∧
      githubGetDefaultBranch (.ok ⟨some n, some ⟨some l⟩, some u, some b⟩) = .ok b) ∧
    (∀ (r : GhRepository),
      (r.name = none ∨ r.owner = none ∨
        (∃ o, r.owner = some o ∧ o.login = none) ∨ r.htmlURL = none) →
      (githubGetRepo (.ok r)).isPanic = true) ∧
    (∀ (r : GhRepository), r.defaultBranch = none →
      (githubGetDefaultBranch (.ok r)).isPanic = true) := by
  refine ⟨fun n l u b => ⟨rfl, rfl⟩, ?_, ?_⟩
  · rintro ⟨name, owner, url, branch⟩ h
    rcases h with h | h | ⟨o, ho, hl⟩ | h
    · simp only at h
      subst h
      rfl
    · simp only at h
      subst h
      cases name <;> rfl
    · simp only at ho
      subst ho
      cases name with
      | none => rfl
      | some n => simp [githubGetRepo, GoRes.isPanic, hl]
    · simp only at h
      subst h
      cases name with
      | none => rfl
      | some n =>
        cases owner with
        | none => rfl
        | some o =>
          cases ho2 : o.login with
          | none => simp [githubGetRepo, GoRes.isPanic, ho2]
          | some l => simp [githubGetRepo, GoRes.isPanic, ho2]
  · rintro ⟨name, owner, url, branch⟩ h
    simp only at h
    subst h
    rfl

/-- Witness for C10: the precondition direction at concrete field
values, and panics at concrete successful responses each missing one
field. -/
theorem getRepo_nil_deref_totality_witness :
    (githubGetRepo (.ok ⟨some "policy", some ⟨some "aserto-dev"⟩,
        some "https://github.com/policy", some "main"⟩) =
      .ok ⟨"policy", "aserto-dev", "https://github.com/policy",
        "https://github.com/policy" ++ githubCI⟩) ∧
    (githubGetRepo (.ok ⟨none, some ⟨some "aserto-dev"⟩,
        some "https://github.com/policy", some "main"⟩)).isPanic = true ∧
    (githubGetDefaultBranch (.ok ⟨some "policy", some ⟨some "aserto-dev"⟩,
        some "https://github.com/policy", none⟩)).isPanic = true :=
  ⟨(getRepo_nil_deref_totality.1 "policy" "aserto-dev"
      "https://github.com/policy" "main").1,
   getRepo_nil_deref_totality.2.1 _ (Or.inl rfl),
   getRepo_nil_deref_totality.2.2 _ rfl⟩

/-- Every pattern in the found set after scanning one granted scope
was already found, or is a required pattern matching that scope. -/
theorem markGranted_mem (required : List RE) (found : List RE) (es : String) :
    ∀ x ∈ markGranted required found es,
      x ∈ found ∨ (x ∈ required ∧ reMatchString x (goTrim es) = true) := by
  induction required with
  | nil =>
    intro x hx
    exact Or.inl hx
  | cons rs rest ih =>
    intro x hx
    unfold markGranted at hx
    by_cases hm : reMatchString rs (goTrim es) = true
    · rw [if_pos hm] at hx
      by_cases hf : rs ∈ found
      · rw [if_pos hf] at hx
        exact Or.inl hx
      · rw [if_neg hf] at hx
        rcases List.mem_cons.mp hx with hx | hx
        · subst hx
          exact Or.inr ⟨List.mem_cons_self _ _, hm⟩
        · exact Or.inl hx
    · rw [if_neg hm] at hx
      rcases ih x hx with hx | ⟨hx1, hx2⟩
      · exact Or.inl hx
      · exact Or.inr ⟨List.mem_cons_of_mem _ hx1, hx2⟩

/-- Scanning one granted scope preserves distinctness of the found
set (the Go map is keyed by the pattern string). -/
theorem markGranted_nodup (required : List RE) (found : List RE) (es : String)
    (h : found.Nodup) : (markGranted required found es).Nodup := by
  induction required with
  | nil => exact h
  | cons rs rest ih =>
    unfold markGranted
    by_cases hm : reMatchString rs (goTrim es) = true
    · rw [if_pos hm]
      by_cases hf : rs ∈ found
      · rw [if_pos hf]
        exact h
      · rw [if_neg hf]
        exact List.nodup_cons.mpr ⟨hf, h⟩
    · rw [if_neg hm]
      exact ih


/-- Elements reachable by folding markGranted over granted scopes:
either already in the initial found set, or a required pattern
matched by one of the granted scopes. -/
theorem scanScopes_aux (required : List RE) :
    ∀ (gs : List String) (found : List RE) (x : RE),
      x ∈ gs.foldl (fun fd es => markGranted required fd es) found →
      x ∈ found ∨ (x ∈ required ∧ ∃ es ∈ gs, reMatchString x (goTrim es) = true) := by
  intro gs
  induction gs with
  | nil =>
    intro found x hx
    exact Or.inl hx
  | cons g rest ih =>
    intro found x hx
    simp only [List.foldl_cons] at hx
    rcases ih (markGranted required found g) x hx with hx2 | ⟨h1, es, hes, hm⟩
    · rcases markGranted_mem required found g x hx2 with h | ⟨h1, h2⟩
      · exact Or.inl h
      · exact Or.inr ⟨h1, g, List.mem_cons_self _ _, h2⟩
    · exact Or.inr ⟨h1, es, List.mem_cons_of_mem _ hes, hm⟩

/-- Every pattern found by the full scan is a required pattern
matched by some granted scope. -/
theorem scanScopes_mem (required : List RE) (granted : List String) :
    ∀ x ∈ scanScopes required granted,
      x ∈ required ∧ ∃ es ∈ granted, reMatchString x (goTrim es) = true := by
  intro x hx
  rcases scanScopes_aux required granted [] x hx with h | h
  · cases h
  · exact h

/-- The found set built by the scan is distinct. -/
theorem scanScopes_nodup (required : List RE) (granted : List String) :
    (scanScopes required granted).Nodup := by
  unfold scanScopes
  suffices hgen : ∀ (gs : List String) (found : List RE), found.Nodup →
      (gs.foldl (fun fd es => markGranted required fd es) found).Nodup by
    exact hgen granted [] List.nodup_nil
  intro gs
  induction gs with
  | nil =>
    intro found h
    exact h
  | cons g rest ih =>
    intro found h
    simp only [List.foldl_cons]
    exact ih _ (markGranted_nodup required found g h)

/-- When the scan found as many distinct patterns as there are
required patterns, every required pattern was matched by some
granted scope. -/
theorem scanScopes_complete (required : List RE) (granted : List String)
    (hlen : (scanScopes required granted).length = required.length) :
    ∀ rs ∈ required, ∃ es ∈ granted, reMatchString rs (goTrim es) = true := by
  intro rs hrs
  have hsub : (scanScopes required granted).toFinset ⊆ required.toFinset := by
    intro x hx
    rw [List.mem_toFinset] at hx ⊢
    exact (scanScopes_mem required granted x hx).1
  have hcard1 : (scanScopes required granted).toFinset.card =
      (scanScopes required granted).length :=
    List.toFinset_card_of_nodup (scanScopes_nodup required granted)
  have hcard2 : required.toFinset.card ≤ required.length := List.toFinset_card_le _
  have heq : (scanScopes required granted).toFinset = required.toFinset :=
    Finset.eq_of_subset_of_card_le hsub (by omega)
  have hmem : rs ∈ scanScopes required granted := by
    have : rs ∈ required.toFinset := List.mem_toFinset.mpr hrs
    rw [← heq, List.mem_toFinset] at this
    exact this
  exact (scanScopes_mem required granted rs hmem).2

/-- C9: the ValidateConnection scope check matches required scopes
by regular expression, not string equality: the pattern
(admin|read):org is satisfied by the granted scope admin:org and by
read:org but not by write:org; and a connection is accepted only
when every required pattern is matched by some granted scope. -/
theorem validateConnection_scope_regex :
    (githubValidateConnection true [adminReadOrgRE] "admin:org" = none) ∧
    (githubValidateConnection true [adminReadOrgRE] "read:org" = none) ∧
    (githubValidateConnection true [adminReadOrgRE] "write:org" =
      some (.plain "github access token is missing scopes")) ∧
    (reMatchString adminReadOrgRE "admin:org" = true ∧
      reMatchString adminReadOrgRE "read:org" = true ∧
      reMatchString adminReadOrgRE "write:org" = false) ∧
    (∀ (required : List RE) (header : String),
      githubValidateConnection true required header = none →
      ∀ rs ∈ required, ∃ es ∈ goSplitComma header,
        reMatchString rs (goTrim es) = true) := by
  refine ⟨rfl, rfl, rfl, ⟨rfl, rfl, rfl⟩, ?_⟩
  intro required header hacc rs hrs
  unfold githubValidateConnection at hacc
  rw [if_neg (by simp)] at hacc
  by_cases hlen : required.length = 0
  · rw [List.length_eq_zero] at hlen
    subst hlen
    cases hrs
  · rw [if_neg hlen] at hacc
    by_cases hfound :
        (scanScopes required (goSplitComma header)).length = required.length
    · exact scanScopes_complete required (goSplitComma header) hfound rs hrs
    · rw [if_neg hfound] at hacc
      cases hacc

/-- Witness for C9: applying the acceptance direction at the
concrete required pattern and the concrete header admin:org. -/
theorem validateConnection_scope_regex_witness :
    ∃ es ∈ goSplitComma "admin:org",
      reMatchString adminReadOrgRE (goTrim es) = true :=
  validateConnection_scope_regex.2.2.2.2 [adminReadOrgRE] "admin:org" rfl
    adminReadOrgRE (List.mem_cons_self _ _)

/-- Behaviour of the github page loop in fetch-all mode: for a
backend that serves pages with hasNextPage = true followed by a
final page with hasNextPage = false, the loop accumulates every
node, returns the empty next token with resultSize = totalSize =
number of accumulated items, and performs exactly one call per page,
with an unchanged page size variable, starting from the given cursor
and then following the reported end cursors. -/
theorem ghPagedLoop_all {α : Type} (plast : GhPage α) (hlast : plast.hasNextPage = false) :
    ∀ (ps : List (GhPage α)) (first : Int) (after : Option String) (acc : List α),
      (∀ q ∈ ps, q.hasNextPage = true) →
      ghPagedLoop (-1) first after (ps ++ [plast]) acc =
        some (acc ++ ((ps ++ [plast]).map GhPage.nodes).flatten,
          ⟨"", ((acc ++ ((ps ++ [plast]).map GhPage.nodes).flatten).length : Int),
            ((acc ++ ((ps ++ [plast]).map GhPage.nodes).flatten).length : Int)⟩,
          (first, after) :: ps.map (fun p => (first, some p.endCursor))) := by
  intro ps
  induction ps with
  | nil =>
    intro first after acc _
    simp [ghPagedLoop, hlast]
  | cons p ps ih =>
    intro first after acc hall
    have hp : p.hasNextPage = true := hall p (List.mem_cons_self _ _)
    have heq := ih first (some p.endCursor) (acc ++ p.nodes)
      (fun q hq => hall q (List.mem_cons_of_mem _ hq))
    simp only [List.cons_append, ghPagedLoop, hp, List.append_eq]
    rw [heq]
    simp [List.append_assoc]

/-- Behaviour of the gitlab page loop in fetch-all mode: for a
backend that serves pages with a non-zero NextPage followed by a
final page with NextPage = 0, the loop accumulates every item,
returns the empty next token with resultSize = totalSize = number of
accumulated items, and performs exactly one call per page, with an
unchanged PerPage, starting from the given page number and then
following the reported next page numbers. -/
theorem glPagedLoop_all {α : Type} (plast : GlPage α) (hlast : plast.nextPage = 0) :
    ∀ (ps : List (GlPage α)) (curPage perPage : Int) (acc : List α),
      (∀ q ∈ ps, q.nextPage ≠ 0) →
      glPagedLoop (-1) curPage perPage (ps ++ [plast]) acc =
        some (acc ++ ((ps ++ [plast]).map GlPage.items).flatten,
          ⟨"", ((acc ++ ((ps ++ [plast]).map GlPage.items).flatten).length : Int),
            ((acc ++ ((ps ++ [plast]).map GlPage.items).flatten).length : Int)⟩,
          (curPage, perPage) :: ps.map (fun p => (((p.nextPage : Nat) : Int), perPage))) := by
  intro ps
  induction ps with
  | nil =>
    intro curPage perPage acc _
    simp [glPagedLoop, hlast]
  | cons p ps ih =>
    intro curPage perPage acc hall
    have hp : p.nextPage ≠ 0 := hall p (List.mem_cons_self _ _)
    have heq := ih ((p.nextPage : Nat) : Int) perPage (acc ++ p.items)
      (fun q hq => hall q (List.mem_cons_of_mem _ hq))
    simp only [List.cons_append, glPagedLoop, hp, List.append_eq]
    rw [heq]
    simp [List.append_assoc]

/-- C1: for every list request with size -1, the list operations of
both providers repeatedly fetch with an internal page size of 100,
starting from the request token (or the beginning when it is empty),
accumulate items until the provider reports no further page, and
return a PaginationResponse with empty nextToken and resultSize =
totalSize = number of accumulated items; the call trace shows one
backend call per served page, so a backend serving 3 + 3 + 1 items
over three pages is hit exactly 3 times (final conjuncts). -/
theorem listAll_fetches_until_exhaustion :
    (∀ (token : String) (ps : List (GhPage String)) (plast : GhPage String),
      (∀ q ∈ ps, q.hasNextPage = true) → plast.hasNextPage = false →
      githubListOrgs (some ⟨-1, token⟩) (ps ++ [plast]) =
        some (.ok ((((ps ++ [plast]).map GhPage.nodes).flatten).map
            (fun o => (⟨o, o⟩ : SccOrg)),
          ⟨"", ((((ps ++ [plast]).map GhPage.nodes).flatten).length : Int),
            ((((ps ++ [plast]).map GhPage.nodes).flatten).length : Int)⟩,
          ((100 : Int), if token ≠ "" then some token else none) ::
            ps.map (fun p => ((100 : Int), some p.endCursor))))) ∧
    (∀ (token : String) (start : Int) (ps : List (GlPage GlGroup)) (plast : GlPage GlGroup),
      (goTrim token = "" ∧ start = 0) ∨ (goTrim token ≠ "" ∧ goAtoi token = some start) →
      (∀ q ∈ ps, q.nextPage ≠ 0) → plast.nextPage = 0 →
      gitlabListOrgs (some ⟨-1, token⟩) (ps ++ [plast]) =
        some (.ok ((((ps ++ [plast]).map GlPage.items).flatten).map
            (fun g => (⟨g.name, g.fullPath⟩ : SccOrg)),
          ⟨"", ((((ps ++ [plast]).map GlPage.items).flatten).length : Int),
            ((((ps ++ [plast]).map GlPage.items).flatten).length : Int)⟩,
          (start, (100 : Int)) ::
            ps.map (fun p => (((p.nextPage : Nat) : Int), (100 : Int)))))) ∧
    (∀ (token : String) (ps : List (GhPage GhRepoNode)) (plast : GhPage GhRepoNode),
      (∀ q ∈ ps, q.hasNextPage = true) → plast.hasNextPage = false →
      githubListRepos (some ⟨-1, token⟩) (ps ++ [plast]) =
        some (.ok ((((ps ++ [plast]).map GhPage.nodes).flatten).map
            (fun n => (⟨n.name, n.login, n.url, n.url ++ githubCI⟩ : SccRepo)),
          ⟨"", ((((ps ++ [plast]).map GhPage.nodes).flatten).length : Int),
            ((((ps ++ [plast]).map GhPage.nodes).flatten).length : Int)⟩,
          ((100 : Int), if token ≠ "" then some token else none) ::
            ps.map (fun p => ((100 : Int), some p.endCursor))))) ∧
    (∀ (username org token : String) (start : Int)
        (ps : List (GlPage GlProject)) (plast : GlPage GlProject),
      (goTrim token = "" ∧ start = 0) ∨ (goTrim token ≠ "" ∧ goAtoi token = some start) →
      (∀ q ∈ ps, q.nextPage ≠ 0) → plast.nextPage = 0 →
      gitlabListRepos username org (some ⟨-1, token⟩) (ps ++ [plast]) =
        some (.ok ((((ps ++ [plast]).map GlPage.items).flatten).map
            (fun p => (⟨p.name, org, p.webURL, p.webURL ++ gitlabCI⟩ : SccRepo)),
          ⟨"", ((((ps ++ [plast]).map GlPage.items).flatten).length : Int),
            ((((ps ++ [plast]).map GlPage.items).flatten).length : Int)⟩,
          (start, (100 : Int)) ::
            ps.map (fun p => (((p.nextPage : Nat) : Int), (100 : Int)))))) ∧
    (githubListOrgs (some ⟨-1, ""⟩)
        [⟨["a", "b", "c"], true, "c1", 7⟩, ⟨["d", "e", "f"], true, "c2", 7⟩,
          ⟨["g"], false, "c3", 7⟩] =
      some (.ok ([⟨"a", "a"⟩, ⟨"b", "b"⟩, ⟨"c", "c"⟩, ⟨"d", "d"⟩, ⟨"e", "e"⟩,
            ⟨"f", "f"⟩, ⟨"g", "g"⟩],
        ⟨"", 7, 7⟩, [(100, none), (100, some "c1"), (100, some "c2")]))) ∧
    (gitlabListOrgs (some ⟨-1, ""⟩)
        [⟨[⟨"a", "a"⟩, ⟨"b", "b"⟩, ⟨"c", "c"⟩], 2, 7⟩,
          ⟨[⟨"d", "d"⟩, ⟨"e", "e"⟩, ⟨"f", "f"⟩], 3, 7⟩, ⟨[⟨"g", "g"⟩], 0, 7⟩] =
      some (.ok ([⟨"a", "a"⟩, ⟨"b", "b"⟩, ⟨"c", "c"⟩, ⟨"d", "d"⟩, ⟨"e", "e"⟩,
            ⟨"f", "f"⟩, ⟨"g", "g"⟩],
        ⟨"", 7, 7⟩, [(0, 100), (2, 100), (3, 100)]))) := by
  refine ⟨?_, ?_, ?_, ?_, rfl, rfl⟩
  · intro token ps plast hall hlast
    simp only [githubListOrgs]
    rw [if_neg (by norm_num)]
    rw [ghPagedLoop_all plast hlast ps _ _ _ hall]
    simp
  · intro token start ps plast htok hall hlast
    simp only [gitlabListOrgs]
    rw [if_neg (by norm_num)]
    rcases htok with ⟨h1, h2⟩ | ⟨h1, h2⟩
    · subst h2
      rw [if_neg (by simpa using h1)]
      dsimp only
      rw [glPagedLoop_all plast hlast ps _ _ _ hall]
      simp
    · rw [if_pos h1, h2]
      rw [show Option.map some (some start) = some (some start) from rfl]
      try dsimp only
      rw [glPagedLoop_all plast hlast ps _ _ _ hall]
      simp
  · intro token ps plast hall hlast
    simp only [githubListRepos]
    rw [if_neg (by norm_num)]
    rw [ghPagedLoop_all plast hlast ps _ _ _ hall]
    simp
  · intro username org token start ps plast htok hall hlast
    simp only [gitlabListRepos, gitlabListPagedRepos]
    rw [if_neg (by norm_num)]
    rcases htok with ⟨h1, h2⟩ | ⟨h1, h2⟩
    · subst h2
      rw [if_neg (by simpa using h1)]
      dsimp only
      rw [glPagedLoop_all plast hlast ps _ _ _ hall]
      simp
    · rw [if_pos h1, h2]
      rw [show Option.map some (some start) = some (some start) from rfl]
      try dsimp only
      rw [glPagedLoop_all plast hlast ps _ _ _ hall]
      simp

/-- Witness for C1: the github all-mode equation applied at a
concrete two-page backend with a non-empty starting token. -/
theorem listAll_fetches_until_exhaustion_witness :
    githubListOrgs (some ⟨-1, "tok"⟩)
        ([⟨["x"], true, "c1", 2⟩] ++ [⟨["y"], false, "c2", 2⟩]) =
      some (.ok ([⟨"x", "x"⟩, ⟨"y", "y"⟩], ⟨"", 2, 2⟩,
        [(100, some "tok"), (100, some "c1")])) := by
  have h := listAll_fetches_until_exhaustion.1 "tok"
    [⟨["x"], true, "c1", 2⟩] ⟨["y"], false, "c2", 2⟩
    (by
      intro q hq
      rw [List.mem_singleton.mp hq])
    rfl
  simpa using h

/-- C2 (amended): for every list request with size different from -1
(and within bounds), the list operations of both providers perform
exactly one backend round trip (singleton call trace) and return a
PaginationResponse whose nextToken is the provider next-page marker
rendered verbatim: the reported endCursor for github, the decimal
rendering of the reported NextPage for gitlab.  In particular the
token is empty only when the rendered marker is the empty string,
which for gitlab never happens (NextPage 0 renders as the string 0,
see the counterexample). -/
theorem listFinite_single_roundtrip :
    (∀ (pg : PaginationRequest) (p : GhPage String) (rest : List (GhPage String)),
      pg.size ≠ -1 → -1 ≤ pg.size → pg.size ≤ 100 →
      githubListOrgs (some pg) (p :: rest) =
        some (.ok (p.nodes.map (fun o => (⟨o, o⟩ : SccOrg)),
          ⟨p.endCursor, (p.nodes.length : Int), p.totalCount⟩,
          [(pg.size, if pg.token ≠ "" then some pg.token else none)]))) ∧
    (∀ (pg : PaginationRequest) (start : Int)
        (p : GlPage GlGroup) (rest : List (GlPage GlGroup)),
      pg.size ≠ -1 → -1 ≤ pg.size → pg.size ≤ 100 →
      (goTrim pg.token = "" ∧ start = 0) ∨
        (goTrim pg.token ≠ "" ∧ goAtoi pg.token = some start) →
      gitlabListOrgs (some pg) (p :: rest) =
        some (.ok (p.items.map (fun g => (⟨g.name, g.fullPath⟩ : SccOrg)),
          ⟨toString p.nextPage, (p.items.length : Int), p.totalItems⟩,
          [(start, pg.size)]))) ∧
    (∀ (pg : PaginationRequest) (p : GhPage GhRepoNode) (rest : List (GhPage GhRepoNode)),
      pg.size ≠ -1 → -1 ≤ pg.size → pg.size ≤ 100 →
      githubListRepos (some pg) (p :: rest) =
        some (.ok (p.nodes.map (fun n => (⟨n.name, n.login, n.url, n.url ++ githubCI⟩ : SccRepo)),
          ⟨p.endCursor, (p.nodes.length : Int), p.totalCount⟩,
          [(pg.size, if pg.token ≠ "" then some pg.token else none)]))) ∧
    (∀ (username org : String) (pg : PaginationRequest) (start : Int)
        (p : GlPage GlProject) (rest : List (GlPage GlProject)),
      pg.size ≠ -1 → -1 ≤ pg.size → pg.size ≤ 100 →
      (goTrim pg.token = "" ∧ start = 0) ∨
        (goTrim pg.token ≠ "" ∧ goAtoi pg.token = some start) →
      gitlabListRepos username org (some pg) (p :: rest) =
        some (.ok (p.items.map
            (fun q => (⟨q.name, org, q.webURL, q.webURL ++ gitlabCI⟩ : SccRepo)),
          ⟨toString p.nextPage, (p.items.length : Int), p.totalItems⟩,
          [(start, pg.size)]))) := by
  refine ⟨?_, ?_, ?_, ?_⟩
  · intro pg p rest hsize hlo hhi
    obtain ⟨size, token⟩ := pg
    simp only at hsize hlo hhi
    simp only [githubListOrgs]
    rw [if_neg (by omega)]
    rw [if_neg hsize]
    simp [ghPagedLoop, hsize]
  · intro pg start p rest hsize hlo hhi htok
    obtain ⟨size, token⟩ := pg
    simp only at hsize hlo hhi htok
    simp only [gitlabListOrgs]
    rw [if_neg (by omega)]
    rcases htok with ⟨h1, h2⟩ | ⟨h1, h2⟩
    · subst h2
      rw [if_neg (by simpa using h1)]
      dsimp only
      rw [if_neg hsize]
      simp [glPagedLoop, hsize]
    · rw [if_pos h1, h2]
      rw [show Option.map some (some start) = some (some start) from rfl]
      dsimp only
      rw [if_neg hsize]
      simp [glPagedLoop, hsize]
  · intro pg p rest hsize hlo hhi
    obtain ⟨size, token⟩ := pg
    simp only at hsize hlo hhi
    simp only [githubListRepos]
    rw [if_neg (by omega)]
    rw [if_neg hsize]
    simp [ghPagedLoop, hsize]
  · intro username org pg start p rest hsize hlo hhi htok
    obtain ⟨size, token⟩ := pg
    simp only at hsize hlo hhi htok
    simp only [gitlabListRepos, gitlabListPagedRepos]
    rw [if_neg (by omega)]
    rcases htok with ⟨h1, h2⟩ | ⟨h1, h2⟩
    · subst h2
      rw [if_neg (by simpa using h1)]
      dsimp only
      rw [if_neg hsize]
      simp [glPagedLoop, hsize]
    · rw [if_pos h1, h2]
      rw [show Option.map some (some start) = some (some start) from rfl]
      dsimp only
      rw [if_neg hsize]
      simp [glPagedLoop, hsize]

/-- Witness for C2: the github finite-page equation applied at a
concrete one-page request of size 2, and the gitlab one at size 1. -/
theorem listFinite_single_roundtrip_witness :
    githubListOrgs (some ⟨2, "tok"⟩) [⟨["a", "b"], false, "curX", 5⟩] =
      some (.ok ([⟨"a", "a"⟩, ⟨"b", "b"⟩], ⟨"curX", 2, 5⟩, [(2, some "tok")])) ∧
    gitlabListOrgs (some ⟨1, ""⟩) [⟨[⟨"g", "g"⟩], 4, 9⟩] =
      some (.ok ([⟨"g", "g"⟩], ⟨"4", 1, 9⟩, [(0, 1)])) := by
  constructor
  · have h := listFinite_single_roundtrip.1 ⟨2, "tok"⟩ ⟨["a", "b"], false, "curX", 5⟩ []
      (by decide) (by decide) (by decide)
    simpa using h
  · have h := listFinite_single_roundtrip.2.1 ⟨1, ""⟩ 0 ⟨[⟨"g", "g"⟩], 4, 9⟩ []
      (by decide) (by decide) (by decide) (Or.inl ⟨rfl, rfl⟩)
    simpa using h

/-- Counterexample for C2 as stated: a gitlab ListOrgs request of
size 1 against a backend reporting NextPage = 0 (no further page)
returns nextToken equal to the string 0, not the empty string. -/
theorem listFinite_nextToken_counterexample :
    gitlabListOrgs (some ⟨1, ""⟩) [⟨[⟨"tests", "test7929"⟩], 0, 1⟩] =
      some (.ok ([⟨"tests", "test7929"⟩], ⟨"0", 1, 1⟩, [(0, 1)])) ∧
    ("0" : String) ≠ "" := by
  exact ⟨rfl, by decide⟩

/-- No attempt admitted by the Retry loop is admitted at or after
the deadline: every recorded check time is below the timeout. -/
theorem retryLoop_calls_lt (timeout : Nat) (f : Nat → Option GoErr) (extra : Nat → Nat) :
    ∀ (i : Nat) (last : Option GoErr),
      ∀ c ∈ (retryLoop timeout f extra i last).2, c.2 < timeout := by
  intro i last
  induction i, last using retryLoop.induct timeout f extra with
  | case1 i last h =>
    intro c hc
    rw [retryLoop, dif_pos h] at hc
    cases hc
  | case2 i last h hf =>
    intro c hc
    rw [retryLoop, dif_neg h, hf] at hc
    rcases List.mem_singleton.mp hc with rfl
    simpa using Nat.lt_of_not_le h
  | case3 i last h e hf ih =>
    intro c hc
    rw [retryLoop, dif_neg h, hf] at hc
    dsimp only at hc
    rcases List.mem_cons.mp hc with rfl | hc
    · simpa using Nat.lt_of_not_le h
    · exact ih c hc

/-- When the attempt function fails on every attempt, the Retry loop
returns the RetryTimeoutExceeded error wrapping the error of the
last performed attempt, after at least one attempt. -/
theorem retryLoop_allFail (timeout : Nat) (f : Nat → Option GoErr) (extra : Nat → Nat)
    (hf : ∀ k, f k ≠ none) :
    ∀ (i : Nat) (last : Option GoErr), retryElapsed extra i < timeout →
      1 ≤ (retryLoop timeout f extra i last).2.length ∧
      (retryLoop timeout f extra i last).1 =
        some (.retryTimeoutErr (f (i + (retryLoop timeout f extra i last).2.length))) := by
  intro i last
  induction i, last using retryLoop.induct timeout f extra with
  | case1 i last h =>
    intro hlt
    omega
  | case2 i last h hfeq =>
    exact absurd hfeq (hf (i + 1))
  | case3 i last h e hfeq ih =>
    intro hlt
    rw [retryLoop, dif_neg h, hfeq]
    dsimp only
    by_cases h2 : retryElapsed extra (i + 1) < timeout
    · obtain ⟨ih1, ih2⟩ := ih h2
      refine ⟨by simp, ?_⟩
      simp only [List.length_cons]
      rw [ih2]
      have harith : i + ((retryLoop timeout f extra (i + 1) (some e)).2.length + 1) =
          i + 1 + (retryLoop timeout f extra (i + 1) (some e)).2.length := by omega
      rw [harith]
    · have hle : timeout ≤ retryElapsed extra (i + 1) := by omega
      rw [retryLoop, dif_pos hle]
      refine ⟨by simp, ?_⟩
      simp only [List.length_cons, List.length_nil]
      rw [hfeq]

/-- When the first success is at attempt k and the deadline has not
passed before it, the Retry loop returns nil immediately after
exactly the attempts 1..k. -/
theorem retryLoop_first_success (timeout : Nat) (f : Nat → Option GoErr) (extra : Nat → Nat) :
    ∀ (i : Nat) (last : Option GoErr) (k : Nat), i < k → f k = none →
      (∀ j, i < j → j < k → f j ≠ none) →
      retryElapsed extra (k - 1) < timeout →
      (retryLoop timeout f extra i last).1 = none ∧
      (retryLoop timeout f extra i last).2.length = k - i := by
  intro i last
  induction i, last using retryLoop.induct timeout f extra with
  | case1 i last h =>
    intro k hik hk hmid hdl
    have hmono := retryElapsed_mono extra (show i ≤ k - 1 by omega)
    omega
  | case2 i last h hfeq =>
    intro k hik hk hmid hdl
    have hksucc : k = i + 1 := by
      by_contra hne
      exact hmid (i + 1) (by omega) (by omega) hfeq
    subst hksucc
    rw [retryLoop, dif_neg h, hfeq]
    refine ⟨rfl, ?_⟩
    simp
  | case3 i last h e hfeq ih =>
    intro k hik hk hmid hdl
    have hne : i + 1 ≠ k := fun hc => by
      rw [hc] at hfeq
      rw [hk] at hfeq
      cases hfeq
    obtain ⟨ih1, ih2⟩ := ih k (by omega) hk
      (fun j hj1 hj2 => hmid j (by omega) hj2) hdl
    rw [retryLoop, dif_neg h, hfeq]
    dsimp only
    refine ⟨ih1, ?_⟩
    simp only [List.length_cons]
    rw [ih2]
    omega

/-- C6: for positive timeouts, retry.Retry checks the deadline
before each attempt so no attempt starts at or after the deadline,
performs at least one attempt, returns nil immediately at the first
successful attempt, and when every attempt fails returns
RetryTimeoutExceeded wrapping the error of the last attempt
performed. -/
theorem retry_positive_deadline_behaviour (timeout : Nat) (f : Nat → Option GoErr)
    (extra : Nat → Nat) (hpos : 0 < timeout) :
    (∀ c ∈ (Retry timeout f extra).2, c.2 < timeout) ∧
    1 ≤ (Retry timeout f extra).2.length ∧
    (∀ k, 1 ≤ k → f k = none → (∀ j, 1 ≤ j → j < k → f j ≠ none) →
      retryElapsed extra (k - 1) < timeout →
      (Retry timeout f extra).1 = none ∧ (Retry timeout f extra).2.length = k) ∧
    ((∀ k, f k ≠ none) →
      (Retry timeout f extra).1 =
        some (.retryTimeoutErr (f ((Retry timeout f extra).2.length)))) := by
  have hR : Retry timeout f extra = retryLoop timeout f extra 0 none := by
    unfold Retry
    rw [if_neg (by omega)]
  have hz : retryElapsed extra 0 < timeout := by
    simpa [retryElapsed] using hpos
  refine ⟨?_, ?_, ?_, ?_⟩
  · rw [hR]
    exact retryLoop_calls_lt timeout f extra 0 none
  · rw [hR]
    rw [retryLoop, dif_neg (Nat.not_le.mpr hz)]
    cases hf1 : f (0 + 1) <;> simp [hf1]
  · intro k hk1 hk hmid hdl
    rw [hR]
    have := retryLoop_first_success timeout f extra 0 none k (by omega) hk
      (fun j hj1 hj2 => hmid j (by omega) hj2) hdl
    simpa using this
  · intro hf
    rw [hR]
    have := retryLoop_allFail timeout f extra hf 0 none hz
    simpa using this.2

/-- Witness for C6: an always-failing attempt function under a 25 ms
deadline yields the wrapped last error, and a function succeeding on
its third attempt under a 100 ms deadline yields nil after exactly 3
attempts. -/
theorem retry_positive_deadline_behaviour_witness :
    (Retry 25 (fun _ => some (.plain "nope")) (fun _ => 0)).1 =
      some (.retryTimeoutErr (some (.plain "nope"))) ∧
    (Retry 100 (fun i => if i = 3 then none else some (.plain "nope")) (fun _ => 5)).1 =
      none ∧
    (Retry 100 (fun i => if i = 3 then none else some (.plain "nope")) (fun _ => 5)).2.length =
      3 := by
  refine ⟨?_, ?_, ?_⟩
  · have h := (retry_positive_deadline_behaviour 25 (fun _ => some (.plain "nope"))
      (fun _ => 0) (by decide)).2.2.2 (fun k => by simp)
    simpa using h
  · have h := (retry_positive_deadline_behaviour 100
      (fun i => if i = 3 then none else some (.plain "nope")) (fun _ => 5)
      (by decide)).2.2.1 3 (by decide) (by simp)
      (by
        intro j h1 h2
        interval_cases j <;> simp)
      (by decide)
    exact h.1
  · have h := (retry_positive_deadline_behaviour 100
      (fun i => if i = 3 then none else some (.plain "nope")) (fun _ => 5)
      (by decide)).2.2.1 3 (by decide) (by simp)
      (by
        intro j h1 h2
        interval_cases j <;> simp)
      (by decide)
    exact h.2

/-- Whenever an iteration of the secondary-rate-limit loop is
admitted by the timer, at least one further invocation of the
wrapped call happens. -/
theorem wsrlLoop_calls_pos (timeout retryCount : Nat) (calls : Nat → GhCall)
    (durs : Nat → Nat) (i : Nat) (last : Option GoErr)
    (h : wsrlElapsed calls durs i < timeout) :
    1 ≤ (wsrlLoop timeout retryCount calls durs i last).2.1 := by
  rw [wsrlLoop, dif_neg (by omega)]
  cases hc : calls i with
  | ok => simp
  | fail m => simp
  | abuse d =>
    dsimp only
    by_cases h2 : retryCount ≤ i + 1
    · rw [dif_pos h2]
    · rw [dif_neg h2]
      simp

/-- Under persistent abuse errors, when the timer stays unexpired
through the capped iterations, the loop returns the
reached-retry-limit error after exactly the remaining budget of
invocations. -/
theorem wsrlLoop_allAbuse_cap (timeout retryCount : Nat) (calls : Nat → GhCall)
    (durs : Nat → Nat) (habuse : ∀ j, ∃ d, calls j = .abuse d) :
    ∀ (i : Nat) (last : Option GoErr), i < retryCount →
      (∀ j, j < retryCount → wsrlElapsed calls durs j < timeout) →
      (wsrlLoop timeout retryCount calls durs i last).1 = some .retryLimitMsg ∧
      (wsrlLoop timeout retryCount calls durs i last).2.1 = retryCount - i := by
  intro i last
  induction i, last using wsrlLoop.induct timeout retryCount calls durs with
  | case1 i last h =>
    intro hi htimer
    have := htimer i hi
    omega
  | case2 i last h hc =>
    obtain ⟨d, hd⟩ := habuse i
    rw [hc] at hd
    cases hd
  | case3 i last h m hc =>
    obtain ⟨d, hd⟩ := habuse i
    rw [hc] at hd
    cases hd
  | case4 i last h d hc hcap =>
    intro hi htimer
    rw [wsrlLoop, dif_neg h, hc]
    dsimp only
    rw [dif_pos hcap]
    refine ⟨rfl, ?_⟩
    show (1 : Nat) = retryCount - i
    omega
  | case5 i last h d hc hcap ih =>
    intro hi htimer
    obtain ⟨ih1, ih2⟩ := ih (by omega) htimer
    rw [wsrlLoop, dif_neg h, hc]
    dsimp only
    rw [dif_neg hcap]
    refine ⟨ih1, ?_⟩
    dsimp only
    rw [ih2]
    omega

/-- Under persistent abuse errors, the loop always ends in an error
of the RetryTimeoutExceeded kind: either the timer fired (wrapped
last error) or the attempt cap was reached (retry-limit message). -/
theorem wsrlLoop_allAbuse_timeoutKind (timeout retryCount : Nat) (calls : Nat → GhCall)
    (durs : Nat → Nat) (habuse : ∀ j, ∃ d, calls j = .abuse d) :
    ∀ (i : Nat) (last : Option GoErr),
      ∃ e, (wsrlLoop timeout retryCount calls durs i last).1 = some e ∧
        e.isRetryTimeout = true := by
  intro i last
  induction i, last using wsrlLoop.induct timeout retryCount calls durs with
  | case1 i last h =>
    refine ⟨.retryTimeoutErr last, ?_, rfl⟩
    rw [wsrlLoop, dif_pos h]
  | case2 i last h hc =>
    obtain ⟨d, hd⟩ := habuse i
    rw [hc] at hd
    cases hd
  | case3 i last h m hc =>
    obtain ⟨d, hd⟩ := habuse i
    rw [hc] at hd
    cases hd
  | case4 i last h d hc hcap =>
    refine ⟨.retryLimitMsg, ?_, rfl⟩
    rw [wsrlLoop, dif_neg h, hc]
    dsimp only
    rw [dif_pos hcap]
  | case5 i last h d hc hcap ih =>
    obtain ⟨e, he1, he2⟩ := ih
    refine ⟨e, ?_, he2⟩
    rw [wsrlLoop, dif_neg h, hc]
    dsimp only
    rw [dif_neg hcap]
    exact he1

/-- C3: the secondary-rate-limit wrapper distinguishes exactly three
outcomes of the wrapped call: success stops with nil after the one
call; a recognized abuse error sleeps exactly the provider-specified
retryAfter duration and (when the cap and the timer allow) a retry
follows; any other error is returned immediately, unretried, with no
cooldown sleep. -/
theorem withSecondaryRateLimitRetry_three_outcomes (timeout retryCount : Nat)
    (calls : Nat → GhCall) (durs : Nat → Nat) (hpos : 0 < timeout) :
    (calls 0 = .ok →
      withSecondaryRateLimitRetry timeout retryCount calls durs = (none, 1, [])) ∧
    (∀ m, calls 0 = .fail m →
      withSecondaryRateLimitRetry timeout retryCount calls durs =
        (some (.plain m), 1, [])) ∧
    (∀ d, calls 0 = .abuse d →
      (withSecondaryRateLimitRetry timeout retryCount calls durs).2.2.head? = some d ∧
      (2 ≤ retryCount → wsrlElapsed calls durs 1 < timeout →
        2 ≤ (withSecondaryRateLimitRetry timeout retryCount calls durs).2.1)) := by
  have hz : ¬ timeout ≤ wsrlElapsed calls durs 0 := by
    simp only [wsrlElapsed]
    omega
  refine ⟨?_, ?_, ?_⟩
  · intro hc
    unfold withSecondaryRateLimitRetry
    rw [wsrlLoop, dif_neg hz, hc]
  · intro m hc
    unfold withSecondaryRateLimitRetry
    rw [wsrlLoop, dif_neg hz, hc]
  · intro d hc
    unfold withSecondaryRateLimitRetry
    rw [wsrlLoop, dif_neg hz, hc]
    dsimp only
    simp only [Nat.zero_add]
    by_cases hcap : retryCount ≤ 1
    · rw [dif_pos hcap]
      exact ⟨rfl, by omega⟩
    · rw [dif_neg hcap]
      refine ⟨rfl, ?_⟩
      intro hrc htimer
      have := wsrlLoop_calls_pos timeout retryCount calls durs 1
        (some (.abuseLimit d)) htimer
      dsimp only
      omega

/-- Witness for C3 at concrete call sequences: success, plain
failure and abuse with a 50 ms provider cooldown. -/
theorem withSecondaryRateLimitRetry_three_outcomes_witness :
    withSecondaryRateLimitRetry 1000 3 (fun _ => .ok) (fun _ => 1) = (none, 1, []) ∧
    withSecondaryRateLimitRetry 1000 3 (fun _ => .fail "boom") (fun _ => 1) =
      (some (.plain "boom"), 1, []) ∧
    (withSecondaryRateLimitRetry 1000 3 (fun _ => .abuse 50) (fun _ => 1)).2.2.head? =
      some 50 ∧
    2 ≤ (withSecondaryRateLimitRetry 1000 3 (fun _ => .abuse 50) (fun _ => 1)).2.1 := by
  refine ⟨?_, ?_, ?_, ?_⟩
  · exact (withSecondaryRateLimitRetry_three_outcomes 1000 3 (fun _ => .ok)
      (fun _ => 1) (by decide)).1 rfl
  · exact (withSecondaryRateLimitRetry_three_outcomes 1000 3 (fun _ => .fail "boom")
      (fun _ => 1) (by decide)).2.1 "boom" rfl
  · exact ((withSecondaryRateLimitRetry_three_outcomes 1000 3 (fun _ => .abuse 50)
      (fun _ => 1) (by decide)).2.2 50 rfl).1
  · exact ((withSecondaryRateLimitRetry_three_outcomes 1000 3 (fun _ => .abuse 50)
      (fun _ => 1) (by decide)).2.2 50 rfl).2 (by decide) (by decide)

/-- C4: the wrapper keeps its own attempt counter: under persistent
abuse errors with the wall-clock timer never expiring, it performs
exactly retryCount invocations and then returns the retry-limit
error, which is of the RetryTimeoutExceeded kind; and whichever
exhaustion condition triggers first (timer or cap), the result under
persistent abuse errors is always a RetryTimeoutExceeded-kind
error. -/
theorem withSecondaryRateLimitRetry_attempt_cap (timeout retryCount : Nat)
    (calls : Nat → GhCall) (durs : Nat → Nat)
    (habuse : ∀ j, ∃ d, calls j = .abuse d) :
    ((1 ≤ retryCount → (∀ j, j < retryCount → wsrlElapsed calls durs j < timeout) →
      (withSecondaryRateLimitRetry timeout retryCount calls durs).1 =
        some .retryLimitMsg ∧
      (withSecondaryRateLimitRetry timeout retryCount calls durs).2.1 = retryCount)) ∧
    (∃ e, (withSecondaryRateLimitRetry timeout retryCount calls durs).1 = some e ∧
      e.isRetryTimeout = true) ∧
    GoErr.retryLimitMsg.isRetryTimeout = true := by
  refine ⟨?_, ?_, rfl⟩
  · intro hrc htimer
    have := wsrlLoop_allAbuse_cap timeout retryCount calls durs habuse 0 none
      (by omega) htimer
    simpa using this
  · exact wsrlLoop_allAbuse_timeoutKind timeout retryCount calls durs habuse 0 none

/-- Witness for C4: three persistent abuse outcomes with a 50 ms
cooldown against an unexpired 1000 ms timer stop with the
retry-limit error after exactly 3 invocations. -/
theorem withSecondaryRateLimitRetry_attempt_cap_witness :
    (withSecondaryRateLimitRetry 1000 3 (fun _ => .abuse 50) (fun _ => 1)).1 =
      some .retryLimitMsg ∧
    (withSecondaryRateLimitRetry 1000 3 (fun _ => .abuse 50) (fun _ => 1)).2.1 = 3 :=
  (withSecondaryRateLimitRetry_attempt_cap 1000 3 (fun _ => .abuse 50) (fun _ => 1)
    (fun j => ⟨50, rfl⟩)).1 (by decide)
    (by
      intro j hj
      interval_cases j <;> decide)

/-- Counterexample for C7 as stated: on the gitlab source, calling
CreateCommitOnBranch twice with identical content for the same
branch performs one CreateCommit write per call, hence two
underlying write calls, not one. -/
theorem createCommitOnBranch_gitlab_double_write_counterexample :
    (gitlabCreateCommitOnBranch ⟨[]⟩ ⟨"main", "msg", "o", "r", [("f", "x")]⟩).2.2.2 = 1 ∧
    (gitlabCreateCommitOnBranch
      (gitlabCreateCommitOnBranch ⟨[]⟩ ⟨"main", "msg", "o", "r", [("f", "x")]⟩).2.2.1
      ⟨"main", "msg", "o", "r", [("f", "x")]⟩).2.2.2 = 1 ∧
    (1 : Nat) + 1 ≠ 1 := by
  exact ⟨rfl, rfl, by decide⟩

/-- C7 (amended): on the github source, for a single-file commit
with non-empty content that differs from the stored blob, the first
CreateCommitOnBranch call submits exactly one commit mutation and
the second identical call reads back the matching content and
returns success with no mutation, so the pair performs exactly one
write; on the gitlab source every call submits exactly one
CreateCommit write unconditionally (no no-op check), so identical
repeated calls repeat the write. -/
theorem createCommitOnBranch_idempotency :
    (∀ (st : GhGitState) (br msg ow rp path content newOid : String),
      st.tip ≠ "" → newOid ≠ "" → content ≠ "" → ghBlobText st path ≠ content →
      (githubCreateCommitOnBranch st ⟨br, msg, ow, rp, [(path, content)]⟩ newOid).2.2 = 1 ∧
      (githubCreateCommitOnBranch
        (githubCreateCommitOnBranch st ⟨br, msg, ow, rp, [(path, content)]⟩ newOid).2.1
        ⟨br, msg, ow, rp, [(path, content)]⟩ newOid).2.2 = 0 ∧
      (githubCreateCommitOnBranch
        (githubCreateCommitOnBranch st ⟨br, msg, ow, rp, [(path, content)]⟩ newOid).2.1
        ⟨br, msg, ow, rp, [(path, content)]⟩ newOid).1 = .ok "") ∧
    (∀ (st : GlGitState) (commit : GoCommit),
      (gitlabCreateCommitOnBranch st commit).2.2.2 = 1) := by
  constructor
  · intro st br msg ow rp path content newOid htip hoid hcontent hdiff
    have hfirst :
        githubCreateCommitOnBranch st ⟨br, msg, ow, rp, [(path, content)]⟩ newOid =
          (.ok newOid, ⟨newOid, ghApplyAdditions st.files [(path, content)]⟩, 1) := by
      unfold githubCreateCommitOnBranch
      rw [if_neg htip]
      rw [if_neg (by
        intro hcc
        exact hdiff hcc.2)]
    refine ⟨by rw [hfirst], ?_, ?_⟩
    · rw [hfirst]
      unfold githubCreateCommitOnBranch
      rw [if_neg hoid]
      rw [if_pos ⟨by simpa [ghBlobText, ghApplyAdditions, List.lookup] using hcontent,
        by simp [ghBlobText, ghApplyAdditions, List.lookup]⟩]
    · rw [hfirst]
      unfold githubCreateCommitOnBranch
      rw [if_neg hoid]
      rw [if_pos ⟨by simpa [ghBlobText, ghApplyAdditions, List.lookup] using hcontent,
        by simp [ghBlobText, ghApplyAdditions, List.lookup]⟩]
  · intro st commit
    rfl

/-- Witness for C7 at a concrete branch state: a commit of content x
to file f on a branch whose stored content is y writes once; the
repeated identical commit is a no-op returning success. -/
theorem createCommitOnBranch_idempotency_witness :
    (githubCreateCommitOnBranch ⟨"t0", [("f", "y")]⟩
      ⟨"main", "msg", "o", "r", [("f", "x")]⟩ "t1").2.2 = 1 ∧
    (githubCreateCommitOnBranch
      (githubCreateCommitOnBranch ⟨"t0", [("f", "y")]⟩
        ⟨"main", "msg", "o", "r", [("f", "x")]⟩ "t1").2.1
      ⟨"main", "msg", "o", "r", [("f", "x")]⟩ "t1").2.2 = 0 ∧
    (githubCreateCommitOnBranch
      (githubCreateCommitOnBranch ⟨"t0", [("f", "y")]⟩
        ⟨"main", "msg", "o", "r", [("f", "x")]⟩ "t1").2.1
      ⟨"main", "msg", "o", "r", [("f", "x")]⟩ "t1").1 = .ok "" :=
  createCommitOnBranch_idempotency.1 ⟨"t0", [("f", "y")]⟩ "main" "msg" "o" "r" "f" "x" "t1"
    (by decide) (by decide) (by decide) (by decide)

/-- Counterexample for C8 as stated: on the github source, when an
explicit commit sha is supplied, InitialTag creates the tag ref even
though the repository already has a tag, so a write call happens. -/
theorem initialTag_github_sha_write_counterexample :
    githubInitialTag ⟨"main", "node1", ["v0.0.0"], some "abc", false⟩
        "o/r" "" "abc" = .ok ["createRef"] ∧
    (["createRef"] : List String) ≠ [] := by
  exact ⟨rfl, by decide⟩

/-- C8 (amended): InitialTag is idempotent on an already-tagged
repository for gitlab always, and for github only when no explicit
commit sha is supplied; with a non-empty commit sha the github
source skips the tag check and creates the tag ref (plus the
workflow fallback) regardless of existing tags. -/
theorem initialTag_idempotency :
    (∀ (proj : GlProjInfo) (fullName workflowFileName : String),
      fullName.data.count '/' ≠ 0 → proj.tagList ≠ [] →
      gitlabInitialTag proj fullName workflowFileName = .ok []) ∧
    (∀ (st : GhRepoInfo) (fullName workflowFileName : String),
      (goSplit fullName '/').length = 2 → st.tags ≠ [] →
      githubInitialTag st fullName workflowFileName "" = .ok []) ∧
    (∀ (st : GhRepoInfo) (fullName workflowFileName commitSha : String),
      (goSplit fullName '/').length = 2 → commitSha ≠ "" →
      githubInitialTag st fullName workflowFileName commitSha =
        .ok (if workflowFileName ≠ "" then
          ["createRef"] ++ githubForceRerunWorkflow st else ["createRef"])) := by
  refine ⟨?_, ?_, ?_⟩
  · intro proj fullName workflowFileName hslash htags
    unfold gitlabInitialTag
    rw [if_neg hslash]
    rw [if_pos (by
      have := List.length_pos.mpr htags
      omega)]
  · intro st fullName workflowFileName hsplit htags
    unfold githubInitialTag
    rw [if_neg (by omega)]
    dsimp only
    rw [if_pos rfl]
    rw [if_pos (by
      have := List.length_pos.mpr htags
      omega)]
  · intro st fullName workflowFileName commitSha hsplit hsha
    unfold githubInitialTag
    rw [if_neg (by omega)]
    dsimp only
    rw [if_neg hsha]
    by_cases hw : workflowFileName ≠ ""
    · rw [if_pos hw, if_pos hw]
    · rw [if_neg hw, if_neg hw]

/-- Witness for C8 at concrete repositories that already carry the
v0.0.0 tag: no writes on gitlab, no writes on github without an
explicit sha, and the github createRef write with an explicit
sha. -/
theorem initialTag_idempotency_witness :
    gitlabInitialTag ⟨"main", ["v0.0.0"], 3⟩ "o/r" "" = .ok [] ∧
    githubInitialTag ⟨"main", "node1", ["v0.0.0"], some "abc", false⟩ "o/r" "" "" =
      .ok [] ∧
    githubInitialTag ⟨"main", "node1", ["v0.0.0"], some "abc", false⟩ "o/r" "" "abc" =
      .ok ["createRef"] := by
  refine ⟨?_, ?_, ?_⟩
  · exact initialTag_idempotency.1 ⟨"main", ["v0.0.0"], 3⟩ "o/r" "" (by decide) (by decide)
  · exact initialTag_idempotency.2.1 ⟨"main", "node1", ["v0.0.0"], some "abc", false⟩
      "o/r" "" (by decide) (by decide)
  · have h := initialTag_idempotency.2.2 ⟨"main", "node1", ["v0.0.0"], some "abc", false⟩
      "o/r" "" "abc" (by decide) (by decide)
    simpa using h
